import Mathlib

/-!
Verification development for the pymutantic repository.

The embedding models the code of `src/pymutantic/_mutant.py`,
`src/pymutantic/_migrate.py` and `src/pymutantic/json_path.py`:
the conversion layer (`to_crdt`), the mutation proxies (`ArrayProxy`,
the `ModelProxy` produced by `wrap`), the document wrapper
(`MutantModel`) and the migration engine (`ModelVersionRegistry.migrate`).

Python dictionaries are modelled as ordered association lists (Python
dicts preserve insertion order and hold each key once); CRDT maps and
arrays of the external `pycrdt` capability are modelled with the standard
map/array semantics the spec assigns to the Document capability.
-/

/-- Plain Python values the library handles: scalars (`None`, bool, int,
str), lists, dicts, and pydantic `BaseModel` instances.  A `pymodel`
carries its fields in declaration order, as `model_dump` reports them. -/
inductive PyVal where
  | pynone : PyVal
  | pybool : Bool → PyVal
  | pyint : Int → PyVal
  | pystr : String → PyVal
  | pylist : List PyVal → PyVal
  | pydict : List (String × PyVal) → PyVal
  | pymodel : List (String × PyVal) → PyVal

/-- CRDT-side values: scalars pass through, `pycrdt.Array` holds a list of
CRDT values, `pycrdt.Map` an ordered association list of them. -/
inductive CrdtVal where
  | cnone : CrdtVal
  | cbool : Bool → CrdtVal
  | cint : Int → CrdtVal
  | cstr : String → CrdtVal
  | carr : List CrdtVal → CrdtVal
  | cmap : List (String × CrdtVal) → CrdtVal

mutual

/-- Embeds `pydantic.BaseModel.model_dump`: a model instance reduced to its
plain nested-value form (field name to value, recursively); containers are
dumped element-wise, scalars pass through. -/
def model_dump : PyVal → PyVal
  | .pynone => .pynone
  | .pybool b => .pybool b
  | .pyint n => .pyint n
  | .pystr s => .pystr s
  | .pylist xs => .pylist (dumpList xs)
  | .pydict kvs => .pydict (dumpKVs kvs)
  | .pymodel kvs => .pydict (dumpKVs kvs)

/-- Maps `model_dump` over the elements of a list. -/
def dumpList : List PyVal → List PyVal
  | [] => []
  | x :: rest => model_dump x :: dumpList rest

/-- Maps `model_dump` over the values of an association list. -/
def dumpKVs : List (String × PyVal) → List (String × PyVal)
  | [] => []
  | (k, v) :: rest => (k, model_dump v) :: dumpKVs rest

end

mutual

/-- Embeds `to_crdt` of `_mutant.py`: recursively converts pydantic models
(via their `model_dump` form), dictionaries and lists to CRDT types; any
other value is returned unchanged. -/
def to_crdt : PyVal → CrdtVal
  | .pynone => .cnone
  | .pybool b => .cbool b
  | .pyint n => .cint n
  | .pystr s => .cstr s
  | .pylist xs => .carr (toCrdtList xs)
  | .pydict kvs => .cmap (toCrdtKVs kvs)
  | .pymodel kvs => .cmap (toCrdtKVs kvs)

/-- Maps `to_crdt` over the elements of a list (`Array([to_crdt(i) for i in o])`). -/
def toCrdtList : List PyVal → List CrdtVal
  | [] => []
  | x :: rest => to_crdt x :: toCrdtList rest

/-- Maps `to_crdt` over the values of a mapping (`Map({k: to_crdt(v) ...})`). -/
def toCrdtKVs : List (String × PyVal) → List (String × CrdtVal)
  | [] => []
  | (k, v) :: rest => (k, to_crdt v) :: toCrdtKVs rest

end

mutual

/-- Embeds `pycrdt` `to_py`: reads a CRDT value back as a plain Python
value (maps become dicts, arrays become lists). -/
def to_py : CrdtVal → PyVal
  | .cnone => .pynone
  | .cbool b => .pybool b
  | .cint n => .pyint n
  | .cstr s => .pystr s
  | .carr xs => .pylist (toPyList xs)
  | .cmap kvs => .pydict (toPyKVs kvs)

/-- Maps `to_py` over the elements of a CRDT array. -/
def toPyList : List CrdtVal → List PyVal
  | [] => []
  | x :: rest => to_py x :: toPyList rest

/-- Maps `to_py` over the values of a CRDT map. -/
def toPyKVs : List (String × CrdtVal) → List (String × PyVal)
  | [] => []
  | (k, v) :: rest => (k, to_py v) :: toPyKVs rest

end

/-- A pydantic model type (the external validation capability's schema):
scalar field kinds, homogeneous lists and nested models with named,
ordered fields. -/
inductive Schema where
  | sNone : Schema
  | sBool : Schema
  | sInt : Schema
  | sStr : Schema
  | sList : Schema → Schema
  | sModel : List (String × Schema) → Schema

mutual

/-- Embeds the external `Model.model_validate` capability on plain nested
values: a model schema validates a dict by validating each declared field
against the dict entry of that name (extra keys are ignored, pydantic's
default; a missing field fails), producing a typed instance. -/
def model_validate : Schema → PyVal → Option PyVal
  | .sNone, .pynone => some .pynone
  | .sBool, .pybool b => some (.pybool b)
  | .sInt, .pyint n => some (.pyint n)
  | .sStr, .pystr s => some (.pystr s)
  | .sList e, .pylist xs => (validateList e xs).map .pylist
  | .sModel fields, .pydict kvs => (validateFields fields kvs).map .pymodel
  | _, _ => none

/-- Validates each element of a list against the element schema. -/
def validateList : Schema → List PyVal → Option (List PyVal)
  | _, [] => some []
  | e, x :: rest =>
      (model_validate e x).bind fun v =>
        (validateList e rest).map fun vs => v :: vs

/-- Validates the declared fields in order, looking each field name up in
the supplied dict. -/
def validateFields : List (String × Schema) → List (String × PyVal) → Option (List (String × PyVal))
  | [], _ => some []
  | (n, fs) :: rest, kvs =>
      (List.lookup n kvs).bind fun raw =>
        (model_validate fs raw).bind fun v =>
          (validateFields rest kvs).map fun vs => (n, v) :: vs

end

mutual

/-- A typed instance of a schema: a `pymodel` whose fields are exactly the
schema's fields, in order, each value an instance of the field's schema. -/
def isInstanceOf : Schema → PyVal → Bool
  | .sNone, .pynone => true
  | .sBool, .pybool _ => true
  | .sInt, .pyint _ => true
  | .sStr, .pystr _ => true
  | .sList e, .pylist xs => isInstanceList e xs
  | .sModel fields, .pymodel kvs => isInstanceFields fields kvs
  | _, _ => false

/-- Every element is an instance of the element schema. -/
def isInstanceList : Schema → List PyVal → Bool
  | _, [] => true
  | e, x :: rest => isInstanceOf e x && isInstanceList e rest

/-- The instance's fields match the schema's fields name-for-name, in
order, each value an instance of its field schema. -/
def isInstanceFields : List (String × Schema) → List (String × PyVal) → Bool
  | [], [] => true
  | (n, fs) :: rest, (k, v) :: kvrest =>
      n == k && isInstanceOf fs v && isInstanceFields rest kvrest
  | _, _ => false

end

/-- No name occurs twice in the list. -/
def nodupKeys : List String → Bool
  | [] => true
  | k :: rest => !(rest.contains k) && nodupKeys rest

mutual

/-- Well-formed schema: within each model, field names are distinct
(pydantic model classes cannot declare one field twice). -/
def Schema.wfNames : Schema → Bool
  | .sNone | .sBool | .sInt | .sStr => true
  | .sList e => Schema.wfNames e
  | .sModel fields => nodupKeys (fields.map Prod.fst) && Schema.wfFieldNames fields

/-- Checks `Schema.wfNames` for every field schema of a model. -/
def Schema.wfFieldNames : List (String × Schema) → Bool
  | [] => true
  | (_, fs) :: rest => Schema.wfNames fs && Schema.wfFieldNames rest

end

/-- The document of a fresh `Doc()`: the reserved root key
(`ROOT_KEY = "__root__"`) holds an empty map — `doc.get(ROOT_KEY, type=Map)`
materialises an empty `Map` on first access. -/
def emptyDoc : CrdtVal := .cmap []

/-- A binary update blob, modelled as the full document state it encodes:
the spec treats the byte layout as an opaque token, and `get_update`
captures the document's full current state. -/
def UpdateBlob := CrdtVal

/-- Embeds `MutantModel` of `_mutant.py`: one owned CRDT document (the
content of its reserved root key) together with the wrapper's bound
pydantic type (`PydanticModel`). -/
structure MutantModel where
  doc : CrdtVal
  boundSchema : Schema

/-- Embeds `Doc.apply_update` of the external Document capability at the
boundary the claims exercise: a blob carries a full state, and applying a
blob to a freshly created (still empty) document reproduces that state.
Merging into a document that already has independent history is the
external CRDT's merge algorithm and is out of the spec's scope. -/
def applyUpdate (doc : CrdtVal) (blob : UpdateBlob) : CrdtVal :=
  match doc with
  | .cmap [] => blob
  | d => d

/-- Embeds the `update` property: a blob representing the latest state. -/
def MutantModel.update (m : MutantModel) : UpdateBlob := m.doc

/-- Embeds `MutantModel.apply_updates`: applies each blob in order. -/
def MutantModel.apply_updates (m : MutantModel) (values : List UpdateBlob) : MutantModel :=
  { m with doc := values.foldl applyUpdate m.doc }

/-- Embeds `MutantModel.set_state`: writes the Conversion-Layer form of the
value to the reserved root key (a full, non-granular overwrite). -/
def MutantModel.set_state (m : MutantModel) (value : PyVal) : MutantModel :=
  { m with doc := to_crdt value }

/-- Embeds the `snapshot` property: validates the root's plain value
against the wrapper's bound type. -/
def MutantModel.snapshot (m : MutantModel) : Option PyVal :=
  model_validate m.boundSchema (to_py m.doc)

/-- How many of `update`, `updates`, `state` were provided, exactly as
`__init__` counts them: `update is not None`, `bool(updates)`,
`state is not None`. -/
def providedCount (update : Option UpdateBlob) (updates : List UpdateBlob)
    (state : Option PyVal) : Nat :=
  ([update.isSome, !updates.isEmpty, state.isSome].map fun b => if b then 1 else 0).sum

/-- The `ValueError` message `MutantModel.__init__` raises when more than
one construction argument is supplied. -/
def argumentConflict : String :=
  "Only one of update, updates, or state should be provided."

/-- Embeds `MutantModel.__init__`: builds a fresh document, fails when more
than one of `update` / `updates` / `state` was provided, then applies
whichever was given (an absent `update` is `None`, an absent `updates` the
empty tuple, an absent `state` is `None`). -/
def MutantModel.init (schema : Schema) (update : Option UpdateBlob)
    (updates : List UpdateBlob) (state : Option PyVal) : Except String MutantModel :=
  let m : MutantModel := { doc := emptyDoc, boundSchema := schema }
  if 1 < providedCount update updates state then
    .error argumentConflict
  else
    let m1 := match update with
      | some b => m.apply_updates [b]
      | none => m
    let m2 := if updates.isEmpty then m1 else m1.apply_updates updates
    let m3 := match state with
      | some v => m2.set_state v
      | none => m2
    .ok m3

/-- A small blog-page schema used for concrete instances. -/
def exSchema : Schema :=
  .sModel [("collection", .sStr),
           ("posts", .sList (.sModel [("id", .sStr), ("n", .sInt)]))]

/-- A concrete instance of `exSchema`. -/
def exInstance : PyVal :=
  .pymodel [("collection", .pystr "tech"),
            ("posts", .pylist [.pymodel [("id", .pystr "p1"), ("n", .pyint 3)]])]

/-- Python sequence index normalisation: a negative index counts from the
end; the result must land in `[0, len)`, otherwise the operation raises
`IndexError`. -/
def pyNorm (i : Int) (len : Nat) : Option Nat :=
  let j : Int := if i < 0 then i + len else i
  if 0 ≤ j ∧ j < len then some j.toNat else none

/-- Python `list.pop(i)` and `pycrdt.Array.pop(i)`: removes and returns the
element at the normalised index; an out-of-range index raises before any
mutation. -/
def listPop (l : List α) (i : Int) : Option (α × List α) :=
  (pyNorm i l.length).bind fun n => (l[n]?).map fun a => (a, l.eraseIdx n)

/-- Python `list[i] = v` and `pycrdt.Array` set-at-index: replaces the
element at the normalised index; an out-of-range index raises before any
mutation. -/
def listSetAt (l : List α) (i : Int) (v : α) : Option (List α) :=
  (pyNorm i l.length).map fun n => l.set n v

/-- Python `del list[i]` and `pycrdt.Array` array-delete: removes the
element at the normalised index; an out-of-range index raises before any
mutation. -/
def listDelAt (l : List α) (i : Int) : Option (List α) :=
  (pyNorm i l.length).map fun n => l.eraseIdx n

/-- Embeds `ArrayProxy` of `_mutant.py`: the in-memory shadow list (the
`list` superclass state) together with `_root`, the bound CRDT array. -/
structure ArrayProxy where
  shadow : List PyVal
  root : List CrdtVal

/-- Embeds `ArrayProxy.append`: `super().append(item)` then
`self._root.append(to_crdt(item))`. -/
def ArrayProxy.append (s : ArrayProxy) (item : PyVal) : ArrayProxy :=
  { shadow := s.shadow ++ [item], root := s.root ++ [to_crdt item] }

/-- Embeds `ArrayProxy.extend`: `super().extend(value)` then one
`self._root.append(to_crdt(item))` per item, in order. -/
def ArrayProxy.extend (s : ArrayProxy) (value : List PyVal) : ArrayProxy :=
  { shadow := s.shadow ++ value, root := s.root ++ toCrdtList value }

/-- Embeds `ArrayProxy.__setitem__`: `super().__setitem__(key, value)`
(which raises on an out-of-range index, before the root is touched) then
`self._root.__setitem__(key, to_crdt(value))`. -/
def ArrayProxy.setitem (s : ArrayProxy) (key : Int) (value : PyVal) : Option ArrayProxy :=
  (listSetAt s.shadow key value).bind fun sh =>
    (listSetAt s.root key (to_crdt value)).map fun rt =>
      { shadow := sh, root := rt }

/-- Embeds `ArrayProxy.pop` (whose Python signature defaults `index` to
-1, the last element): `super().pop(index)` (raising on an out-of-range
index before the root is touched), then `self._root.pop(index)`.  Both
results are discarded and the method body has no `return`, so the caller
receives Python `None`. -/
def ArrayProxy.pop (s : ArrayProxy) (index : Int) : Option (PyVal × ArrayProxy) :=
  (listPop s.shadow index).bind fun p =>
    (listPop s.root index).map fun q =>
      (.pynone, { shadow := p.2, root := q.2 })

/-- Embeds `ArrayProxy.__delitem__`: `super().__delitem__(key)` (raising on
an out-of-range index before the root is touched) then
`self._root.__delitem__(key)`. -/
def ArrayProxy.delitem (s : ArrayProxy) (key : Int) : Option ArrayProxy :=
  (listDelAt s.shadow key).bind fun sh =>
    (listDelAt s.root key).map fun rt =>
      { shadow := sh, root := rt }

/-- Python dict assignment `d[k] = v` on an ordered association list:
replaces the value at the existing key, else appends the new entry. -/
def assocSet : List (String × α) → String → α → List (String × α)
  | [], k, v => [(k, v)]
  | (k0, v0) :: rest, k, v =>
      if k == k0 then (k0, v) :: rest else (k0, v0) :: assocSet rest k v

/-- Python dict deletion `del d[k]`: removes the entry of the key. -/
def assocDel : List (String × α) → String → List (String × α)
  | [], _ => []
  | (k0, v0) :: rest, k =>
      if k == k0 then rest else (k0, v0) :: assocDel rest k

/-- Embeds the `ModelProxy` produced by `wrap` for a mapping node: the
in-memory shadow mapping (the Munch dict content) together with the bound
CRDT map node of the Document. -/
structure ModelProxy where
  shadow : List (String × PyVal)
  root : List (String × CrdtVal)

/-- Embeds `ModelProxy.__setattr__`: `super().__setattr__(key, value)`
(Munch routes a data attribute to `self[key] = value`, the in-memory dict
assignment) followed by `root[key] = to_crdt(value)`, the map-set on the
bound Document node with the Conversion-Layer form of the value. -/
def ModelProxy.setattr (s : ModelProxy) (key : String) (value : PyVal) : ModelProxy :=
  { shadow := assocSet s.shadow key value,
    root := assocSet s.root key (to_crdt value) }

/-- Embeds key assignment `proxy[key] = value` on a `ModelProxy`: neither
`ModelProxy` nor Munch overrides `__setitem__`, so plain `dict.__setitem__`
runs — the in-memory assignment only, no Document operation. -/
def ModelProxy.setitem (s : ModelProxy) (key : String) (value : PyVal) : ModelProxy :=
  { shadow := assocSet s.shadow key value, root := s.root }

/-- Embeds `delattr(proxy, key)` on a `ModelProxy`: `ModelProxy` overrides
only `__setattr__`, so Munch's `__delattr__` runs `del self[k]` — the
in-memory dict delete only, no Document operation — and raises for a
missing key. -/
def ModelProxy.delattr (s : ModelProxy) (key : String) : Option ModelProxy :=
  if (List.lookup key s.shadow).isSome then
    some { shadow := assocDel s.shadow key, root := s.root }
  else
    none

/-- One `jsonpath` match location inside the proxied state: the parent
container (`match.context.value`) and the index or field under it
(`match.path`), as `JsonPathMutator.delete` resolves them. -/
inductive MatchParent where
  | onList : ArrayProxy → Int → MatchParent
  | onDict : ModelProxy → String → MatchParent

/-- Embeds one match step of `JsonPathMutator.delete` of `json_path.py`: a
list parent runs `del parent[key]` (the `ArrayProxy` delete, mirrored to
the Document); a dict parent runs `delattr(parent, key)` (Munch's delete,
in-memory only). -/
def JsonPathMutator.deleteMatch : MatchParent → Option (ArrayProxy ⊕ ModelProxy)
  | .onList s i => (ArrayProxy.delitem s i).map Sum.inl
  | .onDict s k => (ModelProxy.delattr s k).map Sum.inr

/-- A node of the transaction-scoped proxy tree `wrap` builds: scalars are
returned unwrapped; a list shadow becomes an `ArrayProxy` node over the
bound root array; a dict shadow becomes a `ModelProxy` node over the bound
root map, whose Munch content starts from the root map's own entries (the
positional `root` argument of `Munch.__init__`, carried as raw CRDT
values) overridden by the wrapped children. -/
inductive ProxyNode where
  | scalarP : PyVal → ProxyNode
  | rawP : CrdtVal → ProxyNode
  | arrayP : List CrdtVal → List ProxyNode → ProxyNode
  | modelP : List (String × CrdtVal) → List (String × ProxyNode) → ProxyNode

/-- Embeds `Munch.__init__(root, **wrapped)`: `dict(root, **wrapped)` takes the
root map's entries first and overrides them with the wrapped children,
then assigns each resulting entry with plain dict assignment. -/
def munchInit (rkvs : List (String × CrdtVal)) (wkvs : List (String × ProxyNode)) :
    List (String × ProxyNode) :=
  wkvs.foldl (fun acc kv => assocSet acc kv.1 kv.2)
    (rkvs.map fun kv => (kv.1, ProxyNode.rawP kv.2))

mutual

/-- Embeds `wrap` of `_mutant.py`: a dict shadow yields a `ModelProxy` over
the bound root map with every child wrapped against `root[k]` (a key the
root map lacks raises `KeyError`); a list shadow yields an `ArrayProxy`
over the bound root array with every element wrapped against `root[i]`;
anything else is returned unwrapped.  Building the tree only reads the
Document — no Document operation is issued. -/
def wrap : CrdtVal → PyVal → Option ProxyNode
  | root, .pydict kvs =>
      match root with
      | .cmap rkvs => (wrapKVs rkvs kvs).map fun wkvs => .modelP rkvs (munchInit rkvs wkvs)
      | _ => none
  | root, .pylist xs =>
      match root with
      | .carr rxs => (wrapList rxs 0 xs).map fun ws => .arrayP rxs ws
      | _ => none
  | _, o => some (.scalarP o)

/-- Wraps the elements of a list shadow against the root array entries at
consecutive indices (`wrap(root[k], v) for k, v in enumerate(o)`). -/
def wrapList (rxs : List CrdtVal) (i : Nat) : List PyVal → Option (List ProxyNode)
  | [] => some []
  | x :: rest =>
      (rxs[i]?).bind fun c =>
        (wrap c x).bind fun p =>
          (wrapList rxs (i + 1) rest).map fun ps => p :: ps

/-- Wraps the values of a dict shadow against the root map entries of the
same name (`wrap(root[k], v) for k, v in o.items()`). -/
def wrapKVs (rkvs : List (String × CrdtVal)) : List (String × PyVal) → Option (List (String × ProxyNode))
  | [] => some []
  | (k, v) :: rest =>
      (List.lookup k rkvs).bind fun c =>
        (wrap c v).bind fun p =>
          (wrapKVs rkvs rest).map fun ps => (k, p) :: ps

end

/-- Embeds entering `mutate()` and exiting without invoking any mutating
proxy method: `MutateInTransaction.__enter__` validates the root's plain
value against the bound type, dumps the validated instance, builds the
proxy tree with `wrap` (reads only) and opens a transaction;
`MutateInTransaction.__exit__` closes the transaction, committing the
primitive operations issued inside the scope — none here.  The wrapper is
returned as the scope leaves it. -/
def MutantModel.mutateNoop (m : MutantModel) : Option MutantModel :=
  (model_validate m.boundSchema (to_py m.doc)).bind fun inst =>
    (wrap m.doc (model_dump inst)).map fun _ => m

/-- Python list slicing `lst[a:b]` (step 1, nonnegative bounds): the
elements at indices `a .. b-1`, clamped to the list. -/
def pySliceFwd (l : List α) (a b : Nat) : List α := (l.take b).drop a

/-- Python list slicing `lst[a:b:-1]` (step -1, nonnegative bounds): the
start is clamped to the last index and the slice walks from it down to,
but not including, index `b` — the elements at indices `b+1 .. start`,
in descending order. -/
def pySliceRev (l : List α) (a b : Nat) : List α :=
  ((l.take (min a (l.length - 1) + 1)).drop (b + 1)).reverse

/-- A registered model version as the migration engine drives it: the
`up` and `down` hooks, each abstracted by its effect on the document root
(every write a hook makes on the proxied state is mirrored into the
Document by the proxy layer, and the shadow is discarded when the
transaction closes). -/
structure DocVersion where
  up : CrdtVal → CrdtVal
  down : CrdtVal → CrdtVal

/-- The root's `schema_version` field, when the root is a map holding an
integer under that name. -/
def svOf (d : CrdtVal) : Option Int :=
  match d with
  | .cmap kvs =>
      match List.lookup "schema_version" kvs with
      | some (.cint n) => some n
      | _ => none
  | _ => none

/-- Embeds `state.schema_version += direction` on the proxied root: reads
the field (an absent or non-integer field raises), adds `direction` and
writes the sum back through `ModelProxy.__setattr__`, which issues the
map-set of the converted integer on the root Document map. -/
def bumpSchemaVersion (d : CrdtVal) (direction : Int) : Option CrdtVal :=
  match d with
  | .cmap kvs =>
      match List.lookup "schema_version" kvs with
      | some (.cint n) =>
          some (.cmap (assocSet kvs "schema_version" (.cint (n + direction))))
      | _ => none
  | _ => none

/-- One migration step of the loop body: `fn(state, state)` — the
version's `up` hook when the direction is 1, its `down` hook otherwise —
followed by `state.schema_version += direction`. -/
def docStep (direction : Int) (d : CrdtVal) (v : DocVersion) : Option CrdtVal :=
  bumpSchemaVersion ((if direction = 1 then v.up else v.down) d) direction

/-- The registry slice and direction `migrate` computes:
`slice(from_version_index + 1, to_version_index + 1)` with direction 1 when
`from_version_index < to_version_index`, otherwise
`slice(from_version_index, to_version_index, -1)` with direction -1. -/
def migrationSteps (registry : List DocVersion) (fromIdx toIdx : Nat) :
    List DocVersion × Int :=
  if fromIdx < toIdx then (pySliceFwd registry (fromIdx + 1) (toIdx + 1), 1)
  else (pySliceRev registry fromIdx toIdx, -1)

/-- Embeds `ModelVersionRegistry.migrate` of `_migrate.py`.  `fromIdx` and
`toIdx` are the registry positions `list.index` resolves for the source
wrapper's bound type and for `to`.  Inside one `instance.mutate()`
transaction — whose entry validates the root against the source's bound
type — every version of the computed slice applies its hook followed by
the `schema_version` adjustment; the engine then constructs a new wrapper
from the source's exported update blob and repoints it at `to`. -/
def ModelVersionRegistry.migrate (registry : List DocVersion) (fromIdx toIdx : Nat)
    (source : MutantModel) (target : Schema) : Option MutantModel :=
  (model_validate source.boundSchema (to_py source.doc)).bind fun _ =>
    let sd := migrationSteps registry fromIdx toIdx
    (sd.1.foldlM (docStep sd.2) source.doc).map fun d =>
      { doc := applyUpdate emptyDoc d, boundSchema := target }

/-- A registry of five versions whose hooks leave the document root
unchanged; the concrete claim-2 and claim-7 instances only observe the
computed slice and the `schema_version` arithmetic. -/
def testRegistry : List DocVersion :=
  [{ up := fun d => d, down := fun d => d },
   { up := fun d => d, down := fun d => d },
   { up := fun d => d, down := fun d => d },
   { up := fun d => d, down := fun d => d },
   { up := fun d => d, down := fun d => d }]

/-- The version-2 model of the source test suite, restricted to the fields
the claims observe. -/
def v2Schema : Schema :=
  .sModel [("schema_version", .sInt), ("some_field", .sStr)]

/-- A version-2 instance, `schema_version = 2`. -/
def v2State : PyVal :=
  .pymodel [("schema_version", .pyint 2), ("some_field", .pystr "world")]

/-- A wrapper seeded from `v2State` and bound to `v2Schema`. -/
def v2Wrapper : MutantModel := { doc := to_crdt v2State, boundSchema := v2Schema }

example : to_crdt (.pylist [.pyint 3, .pystr "a"]) = .carr [.cint 3, .cstr "a"] := rfl

example : to_py (to_crdt (.pymodel [("a", .pyint 1)])) = .pydict [("a", .pyint 1)] := rfl

example : model_validate (.sModel [("a", .sInt)]) (.pydict [("a", .pyint 2), ("x", .pynone)])
    = some (.pymodel [("a", .pyint 2)]) := by
  simp [model_validate, validateFields, List.lookup]

example : isInstanceOf (.sModel [("a", .sInt)]) (.pymodel [("a", .pyint 2)]) = true := rfl

example : Schema.wfNames (.sModel [("a", .sInt), ("b", .sStr)]) = true := by decide

/-- Converting a dumped value gives the same CRDT value as converting the
value itself: `to_crdt` treats a model exactly as `to_crdt(o.model_dump())`
does in the source. -/
theorem to_crdt_model_dump (v : PyVal) : to_crdt (model_dump v) = to_crdt v := by
  refine @PyVal.rec (fun v => to_crdt (model_dump v) = to_crdt v)
    (fun xs => toCrdtList (dumpList xs) = toCrdtList xs)
    (fun kvs => toCrdtKVs (dumpKVs kvs) = toCrdtKVs kvs)
    (fun kv => to_crdt (model_dump kv.2) = to_crdt kv.2)
    ?_ ?_ ?_ ?_ ?_ ?_ ?_ ?_ ?_ ?_ ?_ ?_ v <;>
  intros <;>
  simp_all [to_crdt, model_dump, toCrdtList, dumpList, toCrdtKVs, dumpKVs]

/-- Reading a converted value back out of the CRDT yields the value's plain
dumped form. -/
theorem toPy_toCrdt (v : PyVal) : to_py (to_crdt v) = model_dump v := by
  refine @PyVal.rec (fun v => to_py (to_crdt v) = model_dump v)
    (fun xs => toPyList (toCrdtList xs) = dumpList xs)
    (fun kvs => toPyKVs (toCrdtKVs kvs) = dumpKVs kvs)
    (fun kv => to_py (to_crdt kv.2) = model_dump kv.2)
    ?_ ?_ ?_ ?_ ?_ ?_ ?_ ?_ ?_ ?_ ?_ ?_ v <;>
  intros <;>
  simp_all [to_py, to_crdt, model_dump, toPyList, toCrdtList, dumpList, toPyKVs, toCrdtKVs, dumpKVs]

/-- Looking a field up in the dump of an association list with distinct
keys finds the dump of that field's value. -/
theorem lookup_dumpKVs (kvs : List (String × PyVal)) (n : String) (v : PyVal)
    (hnd : nodupKeys (kvs.map Prod.fst) = true) (hmem : (n, v) ∈ kvs) :
    List.lookup n (dumpKVs kvs) = some (model_dump v) := by
  induction kvs with
  | nil => cases hmem
  | cons head rest ih =>
      obtain ⟨k0, v0⟩ := head
      simp only [List.map_cons, nodupKeys, Bool.and_eq_true, Bool.not_eq_true'] at hnd
      rcases List.mem_cons.mp hmem with heq | hmemr
      · obtain ⟨rfl, rfl⟩ := Prod.mk.injEq .. ▸ heq
        simp [dumpKVs, List.lookup]
      · have hne : (n == k0) = false := by
          rcases h : n == k0 with _ | _
          · rfl
          · have : n = k0 := by simpa using h
            subst this
            have : n ∈ rest.map Prod.fst := List.mem_map_of_mem Prod.fst hmemr
            have := List.elem_iff.mpr this
            simp_all
        simp [dumpKVs, List.lookup, hne, ih hnd.2 hmemr]

/-- A schema instance's field names are exactly the schema's field names. -/
theorem isInstanceFields_names (fields : List (String × Schema)) (kvs : List (String × PyVal))
    (h : isInstanceFields fields kvs = true) : kvs.map Prod.fst = fields.map Prod.fst := by
  induction fields generalizing kvs with
  | nil => cases kvs with
      | nil => rfl
      | cons a b => simp [isInstanceFields] at h
  | cons head rest ih =>
      obtain ⟨n, fs⟩ := head
      cases kvs with
      | nil => simp [isInstanceFields] at h
      | cons kv kvrest =>
          obtain ⟨k, v⟩ := kv
          simp only [isInstanceFields, Bool.and_eq_true, beq_iff_eq] at h
          simp [ih kvrest h.2, h.1.1]

/-- Validating the dumped form of a well-formed schema's instance returns
the instance itself, field for field. -/
theorem validate_dump (s : Schema) (m : PyVal)
    (hwf : Schema.wfNames s = true) (hin : isInstanceOf s m = true) :
    model_validate s (model_dump m) = some m := by
  refine @Schema.rec
    (fun s => ∀ m, Schema.wfNames s = true → isInstanceOf s m = true →
      model_validate s (model_dump m) = some m)
    (fun fields => ∀ kvsFull kvs, Schema.wfFieldNames fields = true →
      isInstanceFields fields kvs = true →
      (∀ p ∈ kvs, p ∈ kvsFull) →
      nodupKeys (kvsFull.map Prod.fst) = true →
      validateFields fields (dumpKVs kvsFull) = some kvs)
    (fun p => ∀ m, Schema.wfNames p.2 = true → isInstanceOf p.2 m = true →
      model_validate p.2 (model_dump m) = some m)
    ?_ ?_ ?_ ?_ ?_ ?_ ?_ ?_ ?_ s m hwf hin
  · intro m _ hin
    cases m <;> simp_all [isInstanceOf, model_validate, model_dump]
  · intro m _ hin
    cases m <;> simp_all [isInstanceOf, model_validate, model_dump]
  · intro m _ hin
    cases m <;> simp_all [isInstanceOf, model_validate, model_dump]
  · intro m _ hin
    cases m <;> simp_all [isInstanceOf, model_validate, model_dump]
  · intro e ihe m hwf hin
    have hwfe : Schema.wfNames e = true := by
      simpa [Schema.wfNames] using hwf
    have H : ∀ xs, isInstanceList e xs = true →
        validateList e (dumpList xs) = some xs := by
      intro xs
      induction xs with
      | nil => intro _; simp [dumpList, validateList]
      | cons x rest ihx =>
          intro hxs
          simp only [isInstanceList, Bool.and_eq_true] at hxs
          simp [dumpList, validateList, ihe x hwfe hxs.1, ihx hxs.2]
    cases m with
    | pylist xs =>
        have hxs : isInstanceList e xs = true := by
          simpa [isInstanceOf] using hin
        simp [model_dump, model_validate, H xs hxs]
    | pynone => simp [isInstanceOf] at hin
    | pybool b => simp [isInstanceOf] at hin
    | pyint n => simp [isInstanceOf] at hin
    | pystr t => simp [isInstanceOf] at hin
    | pydict kvs => simp [isInstanceOf] at hin
    | pymodel kvs => simp [isInstanceOf] at hin
  · intro fields ihf m hwf hin
    cases m with
    | pymodel kvs =>
        have hif : isInstanceFields fields kvs = true := by
          simpa [isInstanceOf] using hin
        simp only [Schema.wfNames, Bool.and_eq_true] at hwf
        have hnames := isInstanceFields_names fields kvs hif
        have hnd : nodupKeys (kvs.map Prod.fst) = true := by
          rw [hnames]; exact hwf.1
        have := ihf kvs kvs hwf.2 hif (fun p hp => hp) hnd
        simp [model_dump, model_validate, this]
    | pynone => simp [isInstanceOf] at hin
    | pybool b => simp [isInstanceOf] at hin
    | pyint n => simp [isInstanceOf] at hin
    | pystr t => simp [isInstanceOf] at hin
    | pydict kvs => simp [isInstanceOf] at hin
    | pylist xs => simp [isInstanceOf] at hin
  · intro kvsFull kvs _ hin _ _
    cases kvs with
    | nil => simp [validateFields]
    | cons a b => simp [isInstanceFields] at hin
  · intro head tail ihp ihtail kvsFull kvs hwfF hin hsub hnd
    obtain ⟨n, fs⟩ := head
    cases kvs with
    | nil => simp [isInstanceFields] at hin
    | cons kv kvrest =>
        obtain ⟨k, v⟩ := kv
        simp only [isInstanceFields, Bool.and_eq_true, beq_iff_eq] at hin
        obtain ⟨⟨hnk, hiv⟩, hrest⟩ := hin
        subst hnk
        simp only [Schema.wfFieldNames, Bool.and_eq_true] at hwfF
        have hlook : List.lookup n (dumpKVs kvsFull) = some (model_dump v) :=
          lookup_dumpKVs kvsFull n v hnd (hsub (n, v) (List.mem_cons_self _ _))
        have hval : model_validate fs (model_dump v) = some v := ihp v hwfF.1 hiv
        have htail : validateFields tail (dumpKVs kvsFull) = some kvrest :=
          ihtail kvsFull kvrest hwfF.2 hrest (fun p hp => hsub p (List.mem_cons_of_mem _ hp)) hnd
        simp [validateFields, hlook, hval, htail]
  · intro fst snd ihsnd m hwf hin
    exact ihsnd m hwf hin

/-- Claim C1: for every typed model instance `m` (an instance of a
well-formed bound schema), constructing a wrapper with `state = m` and then
taking a snapshot returns an instance equal to `m` field for field:
`set_state` wrote `to_crdt m` to the root key, and `snapshot` validates the
root's plain value against the bound type. -/
theorem claim1_construct_snapshot_roundtrip (s : Schema) (m : PyVal)
    (hwf : Schema.wfNames s = true) (hin : isInstanceOf s m = true) :
    ∃ w, MutantModel.init s none [] (some m) = .ok w ∧ w.snapshot = some m := by
  refine ⟨{ doc := to_crdt m, boundSchema := s }, rfl, ?_⟩
  show model_validate s (to_py (to_crdt m)) = some m
  rw [toPy_toCrdt]
  exact validate_dump s m hwf hin

/-- Witness for C1 at a concrete schema and instance. -/
theorem claim1_construct_snapshot_roundtrip_witness :
    ∃ w, MutantModel.init exSchema none [] (some exInstance) = .ok w ∧
      w.snapshot = some exInstance :=
  claim1_construct_snapshot_roundtrip exSchema exInstance rfl rfl

/-- Counterexample to claim C3 as stated: supplying none of `update`,
`updates`, `state` is not rejected — construction succeeds and yields a
wrapper over a fresh empty document (`__init__` only checks
`sum(provided_args) > 1`). -/
theorem claim3_counterexample :
    MutantModel.init (.sModel []) none [] none
      = .ok { doc := emptyDoc, boundSchema := .sModel [] } := rfl

/-- Claim C3 (amended): construction fails with the argument-conflict
`ValueError` exactly when two or more of `update`, `updates`, `state` are
provided (and the failure happens before any document mutation — the error
is returned without touching the fresh document); with at most one
provided, construction succeeds.  Supplying none of the three is accepted
and yields a wrapper over the fresh empty document. -/
theorem claim3_construction_exclusivity (s : Schema) (u : Option UpdateBlob)
    (us : List UpdateBlob) (st : Option PyVal) :
    (MutantModel.init s u us st = .error argumentConflict ↔
      2 ≤ providedCount u us st)
    ∧ (providedCount u us st ≤ 1 → ∃ w, MutantModel.init s u us st = .ok w) := by
  unfold MutantModel.init
  by_cases h : 1 < providedCount u us st
  · simp only [h, if_true]
    constructor
    · simp
      omega
    · intro hle
      omega
  · simp only [h, if_false]
    constructor
    · constructor
      · intro heq
        cases heq
      · intro h2
        omega
    · intro _
      exact ⟨_, rfl⟩

/-- Witness pinning C3's amended behaviour at concrete inputs: giving both
a state and an update blob conflicts, giving only a state succeeds. -/
theorem claim3_construction_exclusivity_witness :
    (MutantModel.init exSchema (some (to_crdt exInstance)) [] (some exInstance)
        = .error argumentConflict ↔
      2 ≤ providedCount (some (to_crdt exInstance)) [] (some exInstance))
    ∧ (providedCount (some (to_crdt exInstance)) [] (some exInstance) ≤ 1 →
        ∃ w, MutantModel.init exSchema (some (to_crdt exInstance)) [] (some exInstance)
          = .ok w) :=
  claim3_construction_exclusivity exSchema (some (to_crdt exInstance)) [] (some exInstance)

/-- Claim C4, evaluated at the failing input: popping the one-element
proxied sequence `[10]` at the default index `-1` does remove the element
in memory and issue the array-delete on the bound root, but the caller
receives `None` rather than the removed element (the method body discards
`super().pop(index)` and has no `return`). -/
theorem claim4_pop_returns_none :
    ArrayProxy.pop { shadow := [.pyint 10], root := [.cint 10] } (-1)
      = some (.pynone, { shadow := [], root := [] }) := rfl

/-- An index is in range exactly when normalisation succeeds. -/
theorem pyNorm_none_iff (i : Int) (len : Nat) :
    pyNorm i len = none ↔ ¬(-(len : Int) ≤ i ∧ i < (len : Int)) := by
  by_cases hneg : i < 0
  · simp only [pyNorm]
    rw [if_pos hneg]
    split_ifs with h
    · constructor
      · intro hc
        cases hc
      · intro hc
        exact absurd ⟨by omega, by omega⟩ hc
    · refine iff_of_true rfl ?_
      intro hc
      exact h ⟨by omega, by omega⟩
  · simp only [pyNorm]
    rw [if_neg hneg]
    split_ifs with h
    · constructor
      · intro hc
        cases hc
      · intro hc
        exact absurd ⟨by omega, by omega⟩ hc
    · refine iff_of_true rfl ?_
      intro hc
      exact h ⟨by omega, by omega⟩

/-- A successful normalisation lands inside the list. -/
theorem pyNorm_some_lt (i : Int) (len : Nat) (n : Nat)
    (h : pyNorm i len = some n) : n < len := by
  by_cases hneg : i < 0
  · simp only [pyNorm] at h
    rw [if_pos hneg] at h
    split_ifs at h with hj
    · injection h with h
      omega
  · simp only [pyNorm] at h
    rw [if_neg hneg] at h
    split_ifs at h with hj
    · injection h with h
      omega

/-- Claim C6: on a proxied sequence whose shadow list and bound root array
have the same length, `pop`, delete-at and set-at fail (raising `IndexError`
with neither the shadow nor the Document array touched — the failing
operation returns no new state) exactly for indices outside `[-len, len)`,
and an in-range index is normalised by the ordinary negative-index
convention, `-1` denoting the last element. -/
theorem claim6_out_of_range_index (s : ArrayProxy) (i : Int)
    (hlen : s.root.length = s.shadow.length) :
    (pyNorm i s.shadow.length = none ↔
      ¬(-(s.shadow.length : Int) ≤ i ∧ i < (s.shadow.length : Int)))
    ∧ (pyNorm i s.shadow.length = none →
        ArrayProxy.pop s i = none ∧ ArrayProxy.delitem s i = none ∧
        ∀ v, ArrayProxy.setitem s i v = none)
    ∧ (∀ n, pyNorm i s.shadow.length = some n →
        ArrayProxy.pop s i
            = some (.pynone,
                { shadow := s.shadow.eraseIdx n, root := s.root.eraseIdx n })
        ∧ ArrayProxy.delitem s i
            = some { shadow := s.shadow.eraseIdx n, root := s.root.eraseIdx n }
        ∧ ∀ v, ArrayProxy.setitem s i v
            = some { shadow := s.shadow.set n v, root := s.root.set n (to_crdt v) })
    ∧ (0 < s.shadow.length → pyNorm (-1) s.shadow.length = some (s.shadow.length - 1)) := by
  refine ⟨pyNorm_none_iff i s.shadow.length, ?_, ?_, ?_⟩
  · intro h
    refine ⟨?_, ?_, fun v => ?_⟩ <;>
      simp [ArrayProxy.pop, ArrayProxy.delitem, ArrayProxy.setitem,
        listPop, listDelAt, listSetAt, h]
  · intro n h
    have hn : n < s.shadow.length := pyNorm_some_lt i s.shadow.length n h
    have hr : pyNorm i s.root.length = some n := by rw [hlen]; exact h
    have hgs : s.shadow[n]? = some s.shadow[n] := List.getElem?_eq_getElem hn
    have hnr : n < s.root.length := by omega
    have hgr : s.root[n]? = some s.root[n] := List.getElem?_eq_getElem hnr
    refine ⟨?_, ?_, fun v => ?_⟩ <;>
      simp [ArrayProxy.pop, ArrayProxy.delitem, ArrayProxy.setitem,
        listPop, listDelAt, listSetAt, h, hr, hgs, hgr]
  · intro hpos
    simp only [pyNorm]
    rw [if_pos (by omega : (-1 : Int) < 0)]
    rw [if_pos (by omega : (0 : Int) ≤ -1 + (s.shadow.length : Int) ∧
      -1 + (s.shadow.length : Int) < (s.shadow.length : Int))]
    congr 1
    omega

/-- Witness for C6 on the concrete proxied sequence `[1, 2]`: the
out-of-range index 5 and the whole index characterisation at that input. -/
theorem claim6_out_of_range_index_witness :
    (pyNorm 5 ([PyVal.pyint 1, PyVal.pyint 2] : List PyVal).length = none ↔
      ¬(-(([PyVal.pyint 1, PyVal.pyint 2] : List PyVal).length : Int) ≤ 5 ∧
        (5 : Int) < (([PyVal.pyint 1, PyVal.pyint 2] : List PyVal).length : Int)))
    ∧ (pyNorm 5 ([PyVal.pyint 1, PyVal.pyint 2] : List PyVal).length = none →
        ArrayProxy.pop { shadow := [.pyint 1, .pyint 2], root := [.cint 1, .cint 2] } 5 = none ∧
        ArrayProxy.delitem { shadow := [.pyint 1, .pyint 2], root := [.cint 1, .cint 2] } 5 = none ∧
        ∀ v, ArrayProxy.setitem { shadow := [.pyint 1, .pyint 2], root := [.cint 1, .cint 2] } 5 v = none)
    ∧ (∀ n, pyNorm 5 ([PyVal.pyint 1, PyVal.pyint 2] : List PyVal).length = some n →
        ArrayProxy.pop { shadow := [.pyint 1, .pyint 2], root := [.cint 1, .cint 2] } 5
            = some (.pynone,
                { shadow := ([PyVal.pyint 1, PyVal.pyint 2] : List PyVal).eraseIdx n,
                  root := ([CrdtVal.cint 1, CrdtVal.cint 2] : List CrdtVal).eraseIdx n })
        ∧ ArrayProxy.delitem { shadow := [.pyint 1, .pyint 2], root := [.cint 1, .cint 2] } 5
            = some { shadow := ([PyVal.pyint 1, PyVal.pyint 2] : List PyVal).eraseIdx n,
                     root := ([CrdtVal.cint 1, CrdtVal.cint 2] : List CrdtVal).eraseIdx n }
        ∧ ∀ v, ArrayProxy.setitem { shadow := [.pyint 1, .pyint 2], root := [.cint 1, .cint 2] } 5 v
            = some { shadow := ([PyVal.pyint 1, PyVal.pyint 2] : List PyVal).set n v,
                     root := ([CrdtVal.cint 1, CrdtVal.cint 2] : List CrdtVal).set n (to_crdt v) })
    ∧ (0 < ([PyVal.pyint 1, PyVal.pyint 2] : List PyVal).length →
        pyNorm (-1) ([PyVal.pyint 1, PyVal.pyint 2] : List PyVal).length
          = some (([PyVal.pyint 1, PyVal.pyint 2] : List PyVal).length - 1)) :=
  claim6_out_of_range_index
    { shadow := [.pyint 1, .pyint 2], root := [.cint 1, .cint 2] } 5 rfl

/-- Claim C9: extending a proxied sequence by a finite list of items leaves
exactly the same shadow list and the same bound root array as appending the
items one at a time, in order. -/
theorem claim9_extend_iterated_append (s : ArrayProxy) (xs : List PyVal) :
    ArrayProxy.extend s xs = xs.foldl ArrayProxy.append s := by
  induction xs generalizing s with
  | nil => simp [ArrayProxy.extend, toCrdtList]
  | cons x rest ih =>
      rw [List.foldl_cons, ← ih]
      simp [ArrayProxy.extend, ArrayProxy.append, toCrdtList]

/-- Looking up after a dict assignment: the assigned key reads back the new
value, every other key is untouched. -/
theorem lookup_assocSet (l : List (String × α)) (k : String) (v : α) (q : String) :
    List.lookup q (assocSet l k v) = if q == k then some v else List.lookup q l := by
  induction l with
  | nil =>
      by_cases hq : q = k
      · simp [assocSet, List.lookup, hq]
      · have hqf : (q == k) = false := beq_false_of_ne hq
        simp [assocSet, List.lookup, hqf]
  | cons head rest ih =>
      obtain ⟨k0, v0⟩ := head
      by_cases hk : k = k0
      · subst hk
        simp only [assocSet, beq_self_eq_true, if_true]
        by_cases hq : q = k
        · subst hq
          simp [List.lookup]
        · have : (q == k) = false := beq_false_of_ne hq
          simp [List.lookup, this]
      · have hk0 : (k == k0) = false := beq_false_of_ne hk
        simp only [assocSet, hk0, Bool.false_eq_true, if_false]
        by_cases hq : q = k0
        · subst hq
          have : (q == k) = false := beq_false_of_ne (fun h => hk h.symm)
          simp [List.lookup, this]
        · have hq0 : (q == k0) = false := beq_false_of_ne hq
          simp [List.lookup, hq0, ih]

/-- Counterexample to claim C5 as stated: key assignment `proxy["a"] = 2`
on the mapping proxy over `{"a": 1}` leaves the bound Document node
untouched at `{"a": 1}`, while the claimed map-set would have produced
`{"a": 2}`. -/
theorem claim5_counterexample :
    (ModelProxy.setitem
        { shadow := [("a", .pyint 1)], root := [("a", .cint 1)] } "a" (.pyint 2)).root
      = [("a", CrdtVal.cint 1)]
    ∧ assocSet [("a", CrdtVal.cint 1)] "a" (to_crdt (.pyint 2))
      = [("a", CrdtVal.cint 2)]
    ∧ [("a", CrdtVal.cint 1)] ≠ [("a", CrdtVal.cint 2)] := by
  refine ⟨rfl, rfl, ?_⟩
  simp

/-- Claim C5 (amended): on a mapping proxy node, attribute assignment
performs the in-memory assignment on the shadow mapping and issues the
map-set of the Conversion-Layer form of the value on the bound Document
node; key assignment performs only the in-memory assignment and leaves the
Document node exactly as it was. -/
theorem claim5_mapping_proxy_assignment (s : ModelProxy) (key : String) (value : PyVal) :
    ((ModelProxy.setattr s key value).shadow = assocSet s.shadow key value
      ∧ (∀ q, List.lookup q (ModelProxy.setattr s key value).root
          = if q == key then some (to_crdt value) else List.lookup q s.root))
    ∧ ((ModelProxy.setitem s key value).shadow = assocSet s.shadow key value
      ∧ (ModelProxy.setitem s key value).root = s.root) :=
  ⟨⟨rfl, fun q => lookup_assocSet s.root key (to_crdt value) q⟩, ⟨rfl, rfl⟩⟩

/-- Claim C8, evaluated at the failing input: deleting the field `"b"` of a
mapping proxy through the path facade removes it from the in-memory shadow
but leaves the Document map still holding `"b"` (no map-delete is issued),
whereas deleting element 0 of a list parent is mirrored into the Document
array. -/
theorem claim8_dict_delete_not_mirrored :
    JsonPathMutator.deleteMatch
        (.onDict { shadow := [("a", .pyint 1), ("b", .pyint 2)],
                   root := [("a", .cint 1), ("b", .cint 2)] } "b")
      = some (.inr { shadow := [("a", .pyint 1)],
                     root := [("a", .cint 1), ("b", .cint 2)] })
    ∧ JsonPathMutator.deleteMatch
        (.onList { shadow := [.pyint 1], root := [.cint 1] } 0)
      = some (.inl { shadow := [], root := [] }) :=
  ⟨rfl, rfl⟩

/-- Claim C10: building the proxy tree issues no Document operation —
whenever entering `mutate()` and exiting without invoking any mutating
proxy method completes, the wrapper (and so the Document's exported state)
is exactly what it was before. -/
theorem claim10_mutate_entry_readonly (m : MutantModel)
    (h : (MutantModel.mutateNoop m).isSome = true) :
    MutantModel.mutateNoop m = some m := by
  unfold MutantModel.mutateNoop at h ⊢
  cases hv : model_validate m.boundSchema (to_py m.doc) with
  | none =>
      rw [hv] at h
      simp at h
  | some inst =>
      rw [hv] at h
      simp only [Option.some_bind] at h ⊢
      cases hw : wrap m.doc (model_dump inst) with
      | none =>
          simp [hw] at h
      | some tree =>
          simp [hw]

/-- Witness for C10 on a concrete valid wrapper. -/
theorem claim10_mutate_entry_readonly_witness :
    MutantModel.mutateNoop { doc := to_crdt exInstance, boundSchema := exSchema }
      = some { doc := to_crdt exInstance, boundSchema := exSchema } :=
  claim10_mutate_entry_readonly
    { doc := to_crdt exInstance, boundSchema := exSchema }
    (by simp [MutantModel.mutateNoop, exSchema, exInstance, to_crdt, toCrdtKVs,
      toCrdtList, to_py, toPyKVs, toPyList, model_validate, validateFields,
      validateList, List.lookup, model_dump, dumpKVs, dumpList, wrap, wrapKVs,
      wrapList, munchInit, assocSet])

/-- Dropping `a` then taking `n` inside a list is reading the elements at
indices `a .. a+n-1`. -/
theorem drop_take_eq_filterMap_range (l : List α) (a n : Nat) (h : a + n ≤ l.length) :
    (l.drop a).take n = (List.range' a n).filterMap fun k => l[k]? := by
  induction n generalizing a with
  | zero => simp [List.range']
  | succ n ih =>
      have ha : a < l.length := by omega
      rw [List.drop_eq_getElem_cons ha, List.range'_succ a n 1]
      simp only [List.take_succ_cons, List.filterMap_cons, List.getElem?_eq_getElem ha]
      rw [ih (a + 1) (by omega)]

/-- The forward slice `lst[a:b]` reads the elements at indices `a .. b-1`
in ascending order. -/
theorem pySliceFwd_eq (l : List α) (a b : Nat) (hab : a ≤ b) (hb : b ≤ l.length) :
    pySliceFwd l a b = (List.range' a (b - a)).filterMap fun k => l[k]? := by
  unfold pySliceFwd
  rw [List.drop_take]
  exact drop_take_eq_filterMap_range l a (b - a) (by omega)

/-- The backward slice `lst[a:b:-1]`, for in-range bounds, reads the
elements at indices `a` down to `b+1` in descending order. -/
theorem pySliceRev_eq (l : List α) (a b : Nat) (ha : a < l.length) (hb : b < l.length) :
    pySliceRev l a b
      = ((List.range' (b + 1) (a - b)).filterMap fun k => l[k]?).reverse := by
  unfold pySliceRev
  have hmin : min a (l.length - 1) = a := by omega
  rw [hmin, List.drop_take]
  have harith : a + 1 - (b + 1) = a - b := by omega
  rw [harith]
  rw [drop_take_eq_filterMap_range l (b + 1) (a - b) (by omega)]

/-- Bumping `schema_version` succeeds on a root carrying an integer there
and adds exactly the direction to it. -/
theorem bumpSchemaVersion_sv (d : CrdtVal) (dir : Int) (v : Int)
    (h : svOf d = some v) :
    ∃ d2, bumpSchemaVersion d dir = some d2 ∧ svOf d2 = some (v + dir) := by
  cases d with
  | cmap kvs =>
      simp only [svOf] at h
      cases hl : List.lookup "schema_version" kvs with
      | none => rw [hl] at h; cases h
      | some c =>
          rw [hl] at h
          cases c with
          | cint n =>
              have hn : n = v := by simpa using h
              subst hn
              refine ⟨.cmap (assocSet kvs "schema_version" (.cint (n + dir))), ?_, ?_⟩
              · simp [bumpSchemaVersion, hl]
              · simp [svOf, lookup_assocSet]
          | cnone => cases h
          | cbool b => cases h
          | cstr s => cases h
          | carr xs => cases h
          | cmap kvs2 => cases h
  | cnone => cases h
  | cbool b => cases h
  | cint n => cases h
  | cstr s => cases h
  | carr xs => cases h

/-- Folding migration steps over a root whose `schema_version` is an
integer and whose hooks preserve that field succeeds and moves
`schema_version` by the direction once per step. -/
theorem foldlM_docStep_sv (dir : Int) (steps : List DocVersion) (d : CrdtVal) (v : Int)
    (hsv : svOf d = some v)
    (hpres : ∀ ver ∈ steps, ∀ e : CrdtVal,
      svOf (ver.up e) = svOf e ∧ svOf (ver.down e) = svOf e) :
    ∃ d2, steps.foldlM (docStep dir) d = some d2
      ∧ svOf d2 = some (v + dir * steps.length) := by
  induction steps generalizing d v with
  | nil =>
      refine ⟨d, rfl, ?_⟩
      simpa using hsv
  | cons ver rest ih =>
      have hpv := hpres ver (List.mem_cons_self _ _) d
      have hhook : svOf ((if dir = 1 then ver.up else ver.down) d) = some v := by
        split_ifs
        · rw [hpv.1, hsv]
        · rw [hpv.2, hsv]
      obtain ⟨d1, hb, hsv1⟩ :=
        bumpSchemaVersion_sv ((if dir = 1 then ver.up else ver.down) d) dir v hhook
      obtain ⟨d2, hfold, hsv2⟩ :=
        ih d1 (v + dir) hsv1 (fun w hw e => hpres w (List.mem_cons_of_mem _ hw) e)
      refine ⟨d2, ?_, ?_⟩
      · rw [List.foldlM_cons]
        show (docStep dir d ver).bind _ = some d2
        unfold docStep
        rw [hb]
        simpa using hfold
      · rw [hsv2]
        congr 1
        simp only [List.length_cons]
        push_cast
        ring

/-- Claim C2: with `i` and `j` the registry indices of the source and
target versions (under the registry invariant the version numbered `v`
sits at index `v - 1`, so these are versions `i+1` and `j+1`), a forward
migration computes exactly the versions at indices `i+1 .. j` in ascending
order with direction 1 — each step running the version's up-hook followed
by `schema_version += 1` — and a backward migration computes exactly the
versions at indices `i` down to `j+1` in descending order with direction
-1 (down-hooks, each followed by `schema_version -= 1`); on a wrapper that
validates, whose root holds an integer `schema_version` that the hooks
leave alone, migration succeeds and moves `schema_version` by exactly
`j - i` — in particular two up-steps for index 1 to 3 (versions 2 to 4)
and two down-steps back. -/
theorem claim2_migration_direction (registry : List DocVersion) (i j : Nat)
    (m : MutantModel) (target : Schema)
    (hi : i < registry.length) (hj : j < registry.length) :
    (i < j → migrationSteps registry i j
        = ((List.range' (i + 1) (j - i)).filterMap fun k => registry[k]?, 1))
    ∧ (j < i → migrationSteps registry i j
        = (((List.range' (j + 1) (i - j)).filterMap fun k => registry[k]?).reverse, -1))
    ∧ (∀ w v, model_validate m.boundSchema (to_py m.doc) = some w →
        svOf m.doc = some v →
        (∀ ver ∈ registry, ∀ e : CrdtVal,
          svOf (ver.up e) = svOf e ∧ svOf (ver.down e) = svOf e) →
        ∃ d2, ModelVersionRegistry.migrate registry i j m target
            = some { doc := d2, boundSchema := target }
          ∧ svOf d2 = some (v + ((j : Int) - (i : Int)))) := by
  refine ⟨?_, ?_, ?_⟩
  · intro hij
    unfold migrationSteps
    rw [if_pos hij, pySliceFwd_eq registry (i + 1) (j + 1) (by omega) (by omega)]
    have harith : j + 1 - (i + 1) = j - i := by omega
    rw [harith]
  · intro hji
    unfold migrationSteps
    rw [if_neg (by omega), pySliceRev_eq registry i j hi hj]
  · intro w v hw hv hpres
    have hsub : ∀ ver ∈ (migrationSteps registry i j).1, ver ∈ registry := by
      intro ver hver
      unfold migrationSteps at hver
      split_ifs at hver
      · exact List.mem_of_mem_take (List.mem_of_mem_drop hver)
      · unfold pySliceRev at hver
        rw [List.mem_reverse] at hver
        exact List.mem_of_mem_take (List.mem_of_mem_drop hver)
    obtain ⟨d2, hfold, hsv2⟩ :=
      foldlM_docStep_sv (migrationSteps registry i j).2
        (migrationSteps registry i j).1 m.doc v hv
        (fun ver hver e => hpres ver (hsub ver hver) e)
    refine ⟨d2, ?_, ?_⟩
    · simp only [ModelVersionRegistry.migrate, hw, Option.some_bind]
      rw [hfold]
      simp [applyUpdate, emptyDoc]
    · rw [hsv2]
      congr 1
      by_cases hij : i < j
      · have hdir : (migrationSteps registry i j).2 = 1 := by
          unfold migrationSteps
          rw [if_pos hij]
        have hlen : (migrationSteps registry i j).1.length = j - i := by
          unfold migrationSteps
          rw [if_pos hij]
          simp only [pySliceFwd, List.length_drop, List.length_take]
          omega
        rw [hdir, hlen]
        omega
      · have hdir : (migrationSteps registry i j).2 = -1 := by
          unfold migrationSteps
          rw [if_neg hij]
        have hlen : (migrationSteps registry i j).1.length = i - j := by
          unfold migrationSteps
          rw [if_neg hij]
          simp only [pySliceRev, List.length_reverse, List.length_drop, List.length_take]
          omega
        rw [hdir, hlen]
        omega

/-- Witness for C2 mirroring `test_migration_v2_to_v4`: from registry index
1 (version 2) to index 3 (version 4), the step slice is exactly indices 2
and 3 in ascending order with direction 1, and `schema_version` moves from
2 to 4. -/
theorem claim2_migration_direction_witness :
    (migrationSteps testRegistry 1 3
        = ((List.range' 2 2).filterMap fun k => testRegistry[k]?, 1))
    ∧ ∃ d2, ModelVersionRegistry.migrate testRegistry 1 3 v2Wrapper v2Schema
          = some { doc := d2, boundSchema := v2Schema }
        ∧ svOf d2 = some (2 + ((3 : Int) - (1 : Int))) :=
  ⟨(claim2_migration_direction testRegistry 1 3 v2Wrapper v2Schema
      (by decide) (by decide)).1 (by decide),
   (claim2_migration_direction testRegistry 1 3 v2Wrapper v2Schema
      (by decide) (by decide)).2.2 v2State 2
      (by
        show model_validate v2Schema (to_py (to_crdt v2State)) = some v2State
        rw [toPy_toCrdt]
        exact validate_dump v2Schema v2State rfl rfl)
      rfl
      (by
        intro ver hver e
        simp only [testRegistry, List.mem_cons, List.not_mem_nil, or_false] at hver
        rcases hver with rfl | rfl | rfl | rfl | rfl <;> exact ⟨rfl, rfl⟩)⟩

/-- Claim C7: migrating a wrapper to the version at its own registry index
computes an empty step slice — no up or down hook runs, `schema_version`
is untouched — and still returns a new wrapper, constructed from the
source's exported update blob, bound to the target type (the same type as
the source's, being at the same index) and holding the same document
state. -/
theorem claim7_migrate_same_index (registry : List DocVersion) (i : Nat)
    (m : MutantModel) (target : Schema) (hi : i < registry.length)
    (hv : (model_validate m.boundSchema (to_py m.doc)).isSome = true) :
    (migrationSteps registry i i).1 = []
    ∧ ModelVersionRegistry.migrate registry i i m target
        = some { doc := m.doc, boundSchema := target } := by
  have hsteps : (migrationSteps registry i i).1 = [] := by
    unfold migrationSteps
    rw [if_neg (lt_irrefl i)]
    unfold pySliceRev
    have hlen : (registry.take (min i (registry.length - 1) + 1)).length ≤ i + 1 := by
      rw [List.length_take]
      omega
    rw [List.drop_eq_nil_of_le hlen]
    rfl
  refine ⟨hsteps, ?_⟩
  obtain ⟨w, hw⟩ := Option.isSome_iff_exists.mp hv
  simp only [ModelVersionRegistry.migrate, hw, Option.some_bind]
  rw [hsteps]
  simp [applyUpdate, emptyDoc]

/-- Witness for C7 at registry index 1 with the concrete valid wrapper. -/
theorem claim7_migrate_same_index_witness :
    (migrationSteps testRegistry 1 1).1 = []
    ∧ ModelVersionRegistry.migrate testRegistry 1 1 v2Wrapper v2Schema
        = some { doc := v2Wrapper.doc, boundSchema := v2Schema } :=
  claim7_migrate_same_index testRegistry 1 v2Wrapper v2Schema (by decide)
    (by
      show (model_validate v2Schema (to_py (to_crdt v2State))).isSome = true
      rw [toPy_toCrdt, validate_dump v2Schema v2State rfl rfl]
      rfl)
